import Mathlib

/-!
Verification development for the ministark repository (Brainfuck STARK
example).  The Rust sources embedded here are:

* `examples/brainfuck/vm.rs` — lexer, compiler, VM simulator, table padder;
* `examples/brainfuck/constraints.rs` — AIR constraint polynomials;
* `src/verifier.rs` — the STARK verifier pipeline.

The base field `Fp` of the trace is the 64-bit field used by the example
(`ark_ff_optimized::fp64`, modulus `2^64 - 2^32 + 1`); it is modelled as
`ZMod 18446744069414584321`.  Constraint polynomials in `constraints.rs`
are generic over a field, and are embedded generically over a commutative
ring.  Rust panics (out-of-bounds indexing, `unwrap` on `None`,
`expect`, usize underflow) are modelled as `none` / `.abort`; `while`
loops are modelled by fuel-indexed structural recursion where the fuel
given at each call site dominates the number of iterations the source
loop performs.
-/

/-- The prime modulus of `ark_ff_optimized::fp64::Fp`: `2^64 - 2^32 + 1`. -/
def fpModulus : ℕ := 18446744069414584321

/-- The base field of the Brainfuck trace (`type Fp` in `vm.rs`). -/
abbrev Fp : Type := ZMod fpModulus

/-- Opcodes of the Brainfuck VM (`enum OpCode` in `vm.rs`); each carries the
ASCII codepoint of its glyph as discriminant. -/
inductive OpCode : Type
  | incrementPointer
  | decrementPointer
  | increment
  | decrement
  | write
  | read
  | loopBegin
  | loopEnd
  deriving DecidableEq

/-- The integer discriminant of an opcode (`OpCode as usize` / `as u64`). -/
def OpCode.val : OpCode → ℕ
  | .incrementPointer => 62
  | .decrementPointer => 60
  | .increment => 43
  | .decrement => 45
  | .write => 46
  | .read => 44
  | .loopBegin => 91
  | .loopEnd => 93

/-- `OpCode::VALUES` from `vm.rs`, in source order. -/
def OpCode.values : List OpCode :=
  [.incrementPointer, .decrementPointer, .increment, .decrement,
   .write, .read, .loopBegin, .loopEnd]

/-- One source character of the lexer (`lex` in `vm.rs`): opcode glyphs map
to their opcode, everything else is a comment. -/
def charToOpCode (c : Char) : Option OpCode :=
  match c with
  | '>' => some .incrementPointer
  | '<' => some .decrementPointer
  | '+' => some .increment
  | '-' => some .decrement
  | '.' => some .write
  | ',' => some .read
  | '[' => some .loopBegin
  | ']' => some .loopEnd
  | _ => none

/-- `lex` from `vm.rs`: keep the opcode characters, drop comments. -/
def lex (source : List Char) : List OpCode :=
  source.filterMap charToOpCode

/-- The compiler loop of `compile` in `vm.rs`.  State: remaining opcodes,
program emitted so far, stack of placeholder addresses.  On `[` a zero
placeholder is pushed and its address recorded; on `]` the stack is popped
(`expect("loop has no beginning")`, modelled as `none` when the stack is
empty), the loop-end target `last + 1` is pushed and the placeholder is
back-patched with the current program length.  The stack is dropped at end
of input and the program returned as is. -/
def compileGo : List OpCode → List ℕ → List ℕ → Option (List ℕ)
  | [], program, _ => some program
  | op :: rest, program, stack =>
    let program := program ++ [op.val]
    match op, stack with
    | .loopBegin, _ =>
      let program := program ++ [0]
      compileGo rest program ((program.length - 1) :: stack)
    | .loopEnd, [] => none
    | .loopEnd, last :: stack =>
      let program := program ++ [last + 1]
      compileGo rest (program.set last program.length) stack
    | _, _ => compileGo rest program stack

/-- `compile` from `vm.rs`. -/
def compile (source : List Char) : Option (List ℕ) :=
  compileGo (lex source) [] []

/-- Fuel-indexed extended Euclid: `egcd fuel a b sa sb` returns `(g, s)`
with `g = gcd a b` and `s·a₀ ≡ g` modulo the original `b₀`, provided the
fuel dominates the number of Euclid steps.  Used to model the field
inverse of `ark_ff` executably. -/
def egcd : ℕ → ℕ → ℕ → ℤ → ℤ → ℕ × ℤ
  | _, a, 0, sa, _ => (a, sa)
  | 0, a, _ + 1, sa, _ => (a, sa)
  | fuel + 1, a, b + 1, sa, sb =>
    egcd fuel (b + 1) (a % (b + 1)) sb (sa - ((a / (b + 1) : ℕ) : ℤ) * sb)

/-- Model of `Fp::inverse` from `ark_ff`: `none` exactly on
non-invertible elements (for the prime `fpModulus`, exactly on zero). -/
def fpInv (x : Fp) : Option Fp :=
  let p := egcd 256 x.val fpModulus 1 0
  if p.1 = 1 then some ((p.2 : ℤ) : Fp) else none

/-- Registers of the Brainfuck VM (`struct Register` in `vm.rs`). -/
structure Register : Type where
  cycle : ℕ
  ip : ℕ
  currInstr : ℕ
  nextInstr : ℕ
  mp : ℕ
  memVal : ℕ
  deriving DecidableEq

/-- Register initialisation of `simulate` (vm.rs lines 118–120):
`curr_instr = program[0]` (an out-of-bounds panic on the empty program,
modelled as `none`) and `next_instr = if program.len() == 1 { 0 } else
{ program[1] }`. -/
def initialRegister (program : List ℕ) : Option Register :=
  match program with
  | [] => none
  | p0 :: _ =>
    some { cycle := 0, ip := 0, currInstr := p0,
           nextInstr := if program.length = 1 then 0 else program.getD 1 0,
           mp := 0, memVal := 0 }

/-- A Processor-table row as pushed by `simulate`: the seven columns
`Cycle, Ip, CurrInstr, NextInstr, Mp, MemVal, MemValInv` (in the order of
the `vec![...]` pushes in `vm.rs`; the simulator never emits a `Dummy`
entry). -/
structure ProcRow : Type where
  cycle : Fp
  ip : Fp
  currInstr : Fp
  nextInstr : Fp
  mp : Fp
  memVal : Fp
  memValInv : Fp
  deriving DecidableEq

/-- A Memory-table row: `Cycle, Mp, MemVal, Dummy`. -/
structure MemRow : Type where
  cycle : Fp
  mp : Fp
  memVal : Fp
  dummy : Fp
  deriving DecidableEq

/-- An Instruction-table row: `Ip, CurrInstr, NextInstr`. -/
structure InstrRow : Type where
  ip : Fp
  currInstr : Fp
  nextInstr : Fp
  deriving DecidableEq

/-- The five padded base tables returned by `simulate`
(`BrainfuckTrace::new`). -/
structure BFTrace : Type where
  processor : List ProcRow
  memory : List MemRow
  instruction : List InstrRow
  inputTable : List Fp
  outputTable : List Fp
  deriving DecidableEq

/-- Result of running the simulator: a value, a Rust panic (`.abort`), or
fuel exhaustion of the model (`.timeout`, never the behaviour of the
source, whose loop simply continues). -/
inductive SimResult (α : Type) : Type
  | ok (t : α)
  | abort
  | timeout
  deriving DecidableEq

/-- Extract the value of a successful simulation. -/
def SimResult.res? {α : Type} : SimResult α → Option α
  | .ok t => some t
  | _ => none

/-- Stable insertion of `a` into `l`, placing `a` after every element it is
not strictly below. -/
def insertSortedBy {α : Type} (lt : α → α → Bool) (a : α) : List α → List α
  | [] => [a]
  | b :: l => if lt a b then a :: b :: l else b :: insertSortedBy lt a l

/-- Stable insertion sort, modelling Rust's stable `sort_by_key`. -/
def sortBy {α : Type} (lt : α → α → Bool) (l : List α) : List α :=
  l.foldl (fun s a => insertSortedBy lt a s) []

/-- Comparison used by `instruction_rows.sort_by_key(|row| row[0])`:
`arkworks` orders field elements by canonical representative. -/
def instrLt (r s : InstrRow) : Bool := r.ip.val < s.ip.val

/-- Comparison used by `memory_rows.sort_by_key(|row| (row[Mp], row[Cycle]))`. -/
def memLt (r s : MemRow) : Bool :=
  r.mp.val < s.mp.val || (r.mp.val = s.mp.val && r.cycle.val < s.cycle.val)

/-- The dummy-row insertion loop of `derive_memory_rows` (vm.rs lines
343–369): walk adjacent pairs; whenever `Mp` is unchanged but `Cycle` does
not advance by exactly one, insert a row copying `Mp` and `MemVal`, with
`Cycle + 1` and `Dummy = 1`, then advance the index.  Fuel-indexed; call
sites pass fuel dominating the iteration count. -/
def dummyGo : ℕ → ℕ → List MemRow → Option (List MemRow)
  | 0, _, _ => none
  | fuel + 1, i, rows =>
    if i < rows.length - 1 then
      let curr := rows.getD i ⟨0, 0, 0, 0⟩
      let next := rows.getD (i + 1) ⟨0, 0, 0, 0⟩
      if curr.mp = next.mp ∧ curr.cycle + 1 ≠ next.cycle then
        dummyGo fuel (i + 1)
          (rows.insertIdx (i + 1) ⟨curr.cycle + 1, curr.mp, curr.memVal, 1⟩)
      else dummyGo fuel (i + 1) rows
    else some rows

/-- Total of the cycle representatives of a memory table; used only to
bound the fuel of `dummyGo` (each inserted dummy narrows some cycle gap). -/
def cycleSum (rows : List MemRow) : ℕ :=
  (rows.map (fun r => r.cycle.val)).sum

/-- `derive_memory_rows` from `vm.rs`: project `(Cycle, Mp, MemVal)` of the
non-halt processor rows (rows whose `CurrInstr` is zero are dropped), sort
by `(Mp, Cycle)`, then fill clock gaps with dummy rows. -/
def derive_memory_rows (proc : List ProcRow) : Option (List MemRow) :=
  let rows := proc.filterMap (fun r =>
    if r.currInstr = 0 then none
    else some (⟨r.cycle, r.mp, r.memVal, 0⟩ : MemRow))
  let rows := sortBy memLt rows
  dummyGo (rows.length + cycleSum rows + 1) 0 rows

/-- The `while rows.len() < n` padding loops of `vm.rs`: append `mk last`
until the fuel (passed as `n - rows.len()` by the wrappers) is exhausted.
`rows.last().unwrap()` on an empty table is a panic, modelled as `none`. -/
def padGo {α : Type} (mk : α → α) : ℕ → List α → Option (List α)
  | 0, rows => some rows
  | fuel + 1, rows =>
    match rows.getLast? with
    | none => none
    | some last => padGo mk fuel (rows ++ [mk last])

/-- `pad_processor_rows`: padding advances `Cycle`, zeroes `CurrInstr` and
`NextInstr`, and freezes `Ip`, `Mp`, `MemVal`, `MemValInv`. -/
def pad_processor_rows (rows : List ProcRow) (n : ℕ) : Option (List ProcRow) :=
  padGo (fun last =>
      ⟨last.cycle + 1, last.ip, 0, 0, last.mp, last.memVal, last.memValInv⟩)
    (n - rows.length) rows

/-- `pad_memory_rows`: padding advances `Cycle`, freezes `Mp` and `MemVal`,
and sets `Dummy = 1`. -/
def pad_memory_rows (rows : List MemRow) (n : ℕ) : Option (List MemRow) :=
  padGo (fun last => ⟨last.cycle + 1, last.mp, last.memVal, 1⟩)
    (n - rows.length) rows

/-- `pad_instruction_rows`: `last_ip` is read before the loop
(`rows.last().unwrap()`, a panic on the empty table), then rows
`(last_ip, 0, 0)` are appended. -/
def pad_instruction_rows (rows : List InstrRow) (n : ℕ) : Option (List InstrRow) :=
  match rows.getLast? with
  | none => none
  | some last => some (rows ++ List.replicate (n - rows.length) ⟨last.ip, 0, 0⟩)

/-- `pad_input_rows`: all-zero padding. -/
def pad_input_rows (rows : List Fp) (n : ℕ) : List Fp :=
  rows ++ List.replicate (n - rows.length) 0

/-- `pad_output_rows`: all-zero padding. -/
def pad_output_rows (rows : List Fp) (n : ℕ) : List Fp :=
  rows ++ List.replicate (n - rows.length) 0

/-- Structural test for powers of two (the documented behaviour of Rust's
`usize::is_power_of_two`); fuel-indexed halving, called with fuel `v`. -/
def isP2Go : ℕ → ℕ → Bool
  | _, 0 => false
  | _, 1 => true
  | 0, _ + 2 => false
  | fuel + 1, v + 2 =>
    if (v + 2) % 2 = 0 then isP2Go fuel ((v + 2) / 2) else false

/-- Model of `usize::is_power_of_two`. -/
def is_power_of_two (v : ℕ) : Bool := isP2Go v v

/-- Doubling loop underlying `next_power_of_two`: starting from the power
of two `p`, double until `v ≤ p`. -/
def nextP2Go : ℕ → ℕ → ℕ → ℕ
  | 0, p, _ => p
  | fuel + 1, p, v => if v ≤ p then p else nextP2Go fuel (2 * p) v

/-- Model of `usize::next_power_of_two`: the smallest power of two that is
greater than or equal to `v` (and `1` for `v = 0`). -/
def next_power_of_two (v : ℕ) : ℕ := nextP2Go v 1 v

/-- `ceil_power_of_two` from `vm.rs`. -/
def ceil_power_of_two (v : ℕ) : ℕ :=
  if is_power_of_two v then v else next_power_of_two v

/-- The `padding_len` computation of `simulate` (vm.rs lines 228–240):
`ceil_power_of_two` of the maximum of the five unpadded table lengths. -/
def padding_len (p m i inp out : ℕ) : ℕ :=
  ceil_power_of_two (([p, m, i, inp, out] : List ℕ).foldl Nat.max 0)

/-- The per-cycle instruction dispatch of `simulate` (vm.rs lines
159–197), after the processor and instruction rows of the cycle have been
pushed.  Returns the updated instruction pointer, memory pointer, tape,
input stream, and input/output tables, or `none` for the Rust panics:
out-of-bounds `program[ip + 1]`, `mp` underflow on `<`, tape accesses at
`mp ≥ 1024`, `read_exact` on an exhausted input, and the
`unrecognized instruction` panic.  Tape bytes wrap modulo `2^8`. -/
def bfDispatch (program : List ℕ) (reg : Register) (tape : ℕ → ℕ)
    (input : List ℕ) (inp out : List Fp) :
    Option (ℕ × ℕ × (ℕ → ℕ) × List ℕ × List Fp × List Fp) :=
  if reg.currInstr = OpCode.loopBegin.val then
    if reg.ip + 1 < program.length then
      let target := program.getD (reg.ip + 1) 0
      some (if reg.memVal = 0 then target else reg.ip + 2,
            reg.mp, tape, input, inp, out)
    else none
  else if reg.currInstr = OpCode.loopEnd.val then
    if reg.ip + 1 < program.length then
      let target := program.getD (reg.ip + 1) 0
      some (if reg.memVal ≠ 0 then target else reg.ip + 2,
            reg.mp, tape, input, inp, out)
    else none
  else if reg.currInstr = OpCode.decrementPointer.val then
    if reg.mp = 0 then none
    else some (reg.ip + 1, reg.mp - 1, tape, input, inp, out)
  else if reg.currInstr = OpCode.incrementPointer.val then
    some (reg.ip + 1, reg.mp + 1, tape, input, inp, out)
  else if reg.currInstr = OpCode.increment.val then
    if reg.mp < 1024 then
      some (reg.ip + 1, reg.mp,
            fun j => if j = reg.mp then (tape reg.mp + 1) % 256 else tape j,
            input, inp, out)
    else none
  else if reg.currInstr = OpCode.decrement.val then
    if reg.mp < 1024 then
      some (reg.ip + 1, reg.mp,
            fun j => if j = reg.mp then (tape reg.mp + 255) % 256 else tape j,
            input, inp, out)
    else none
  else if reg.currInstr = OpCode.write.val then
    if reg.mp < 1024 then
      some (reg.ip + 1, reg.mp, tape, input, inp,
            out ++ [((tape reg.mp : ℕ) : Fp)])
    else none
  else if reg.currInstr = OpCode.read.val then
    match input with
    | [] => none
    | b :: input2 =>
      if reg.mp < 1024 then
        some (reg.ip + 1, reg.mp,
              fun j => if j = reg.mp then b else tape j,
              input2, inp ++ [(b : Fp)], out)
      else none
  else none

/-- The main `while register.ip < program.len()` loop of `simulate`: each
iteration pushes a processor row (with `MemValInv` the unwrapped-or-zero
inverse of `MemVal`) and an instruction row, dispatches the current
instruction, then advances `cycle`, refetches `curr_instr` / `next_instr`
(zero past the end of the program) and rereads `mem_val = tape[mp]` (a
panic when `mp ≥ 1024`). -/
def simGo (program : List ℕ) :
    ℕ → Register → (ℕ → ℕ) → List ℕ → List ProcRow → List InstrRow →
    List Fp → List Fp →
    SimResult (Register × List ProcRow × List InstrRow × List Fp × List Fp)
  | fuel, reg, tape, input, proc, instr, inp, out =>
    if reg.ip < program.length then
      match fuel with
      | 0 => .timeout
      | fuel + 1 =>
        let memVal : Fp := (reg.memVal : Fp)
        let proc := proc ++
          [⟨(reg.cycle : Fp), (reg.ip : Fp), (reg.currInstr : Fp),
            (reg.nextInstr : Fp), (reg.mp : Fp), memVal,
            (fpInv memVal).getD 0⟩]
        let instr := instr ++
          [⟨(reg.ip : Fp), (reg.currInstr : Fp), (reg.nextInstr : Fp)⟩]
        match bfDispatch program reg tape input inp out with
        | none => .abort
        | some (ip2, mp2, tape2, input2, inp2, out2) =>
          if mp2 < 1024 then
            simGo program fuel
              { cycle := reg.cycle + 1, ip := ip2,
                currInstr := program.getD ip2 0,
                nextInstr := program.getD (ip2 + 1) 0,
                mp := mp2, memVal := tape2 mp2 }
              tape2 input2 proc instr inp2 out2
          else .abort
    else .ok (reg, proc, instr, inp, out)

/-- The instruction-listing rows pushed before the main loop of `simulate`
(vm.rs lines 129–135): `(i, program[i], program[i+1] or 0)` for each `i`. -/
def instructionListing (program : List ℕ) : List InstrRow :=
  (List.range program.length).map (fun (i : ℕ) =>
    { ip := (i : Fp), currInstr := ((program.getD i 0 : ℕ) : Fp),
      nextInstr := ((program.getD (i + 1) 0 : ℕ) : Fp) })

/-- `simulate` from `vm.rs`: initialise the registers (reading
`program[0]` unconditionally), run the main loop, push the final
halt-sentinel processor row — whose `MemValInv` is
`mem_val.inverse().unwrap()`, a panic when the final `mem_val` is zero —
and the final instruction row, sort the instruction table by address,
derive the memory table, and pad all five tables to the common power-of-two
length. -/
def simulate (fuel : ℕ) (program : List ℕ) (input : List ℕ) : SimResult BFTrace :=
  match initialRegister program with
  | none => .abort
  | some reg0 =>
    match simGo program fuel reg0 (fun _ => 0) input [] (instructionListing program) [] [] with
    | .timeout => .timeout
    | .abort => .abort
    | .ok (reg, proc, instr, inp, out) =>
      let memVal : Fp := (reg.memVal : Fp)
      match fpInv memVal with
      | none => .abort
      | some mvInv =>
        let proc := proc ++
          [⟨(reg.cycle : Fp), (reg.ip : Fp), (reg.currInstr : Fp),
            (reg.nextInstr : Fp), (reg.mp : Fp), memVal, mvInv⟩]
        let instr := instr ++
          [⟨(reg.ip : Fp), (reg.currInstr : Fp), (reg.nextInstr : Fp)⟩]
        let instr := sortBy instrLt instr
        match derive_memory_rows proc with
        | none => .abort
        | some memory =>
          let n := padding_len proc.length memory.length instr.length
            inp.length out.length
          match pad_processor_rows proc n, pad_memory_rows memory n,
              pad_instruction_rows instr n with
          | some proc2, some mem2, some instr2 =>
            .ok ⟨proc2, mem2, instr2, pad_input_rows inp n, pad_output_rows out n⟩
          | _, _, _ => .abort

/-!
## AIR constraints (`examples/brainfuck/constraints.rs`)

The constraint builders in `constraints.rs` are generic over a field
(`F: GpuField`); they are embedded as functions from the column values of
a row and its successor to the constraint evaluation, generic over a
commutative ring.  The column set of the Processor table
(`ProcessorBaseColumn`) includes a `Dummy` column that the simulator in
`vm.rs` never emits; the constraint functions therefore receive the
`Dummy` values of the two rows as separate arguments next to the
seven-column rows.
-/

/-- The eleven verifier challenges of the Brainfuck AIR
(`enum Challenge` in `tables.rs`): `Alpha, Beta, Gamma, Delta, Eta` and
the tuple-folding weights `A..F`. -/
structure Challenges (F : Type) : Type where
  alpha : F
  beta : F
  gamma : F
  delta : F
  eta : F
  a : F
  b : F
  c : F
  d : F
  e : F
  f : F

/-- The column values of a Processor row used by the base constraints:
the seven simulator columns plus the `Dummy` column. -/
structure ProcessorVals (F : Type) : Type where
  cycle : F
  ip : F
  currInstr : F
  nextInstr : F
  mp : F
  memVal : F
  memValInv : F
  dummy : F

/-- View a simulator row as constraint input, supplying the `Dummy`
column value (which `vm.rs` does not produce). -/
def ProcRow.toVals (r : ProcRow) (dummy : Fp) : ProcessorVals Fp :=
  ⟨r.cycle, r.ip, r.currInstr, r.nextInstr, r.mp, r.memVal, r.memValInv, dummy⟩

/-- `instr_zerofier` from `constraints.rs`:
`∏ opcode (x − opcode)`, accumulated over `OpCode::VALUES`. -/
def instr_zerofier {F : Type} [CommRing F] (x : F) : F :=
  OpCode.values.foldl (fun acc op => acc * (x - (op.val : F))) 1

/-- `if_not_instr` from `constraints.rs`: `∏ {opcode ≠ instr} (x − opcode)`. -/
def if_not_instr {F : Type} [CommRing F] (instr : OpCode) (x : F) : F :=
  OpCode.values.foldl
    (fun acc op => if op ≠ instr then acc * (x - (op.val : F)) else acc) 1

/-- `if_instr` from `constraints.rs`: `x − instr`. -/
def if_instr {F : Type} [CommRing F] (instr : OpCode) (x : F) : F :=
  x - (instr.val : F)

/-- The per-opcode constraint triple (slots for `Ip`, `Mp`, `MemVal`) of
`ProcessorBaseColumn::transition_constraints`, with
`mem_val_is_zero = MemVal·MemValInv − 1`. -/
def instrConstraintsSlots {F : Type} [CommRing F] (instr : OpCode)
    (curr next : ProcessorVals F) : F × F × F :=
  match instr with
  | .incrementPointer => (next.ip - curr.ip - 1, next.mp - curr.mp - 1, 0)
  | .decrementPointer => (next.ip - curr.ip - 1, next.mp - curr.mp + 1, 0)
  | .increment =>
    (next.ip - curr.ip - 1, next.mp - curr.mp, next.memVal - curr.memVal - 1)
  | .decrement =>
    (next.ip - curr.ip - 1, next.mp - curr.mp, next.memVal - curr.memVal + 1)
  | .write => (next.ip - curr.ip - 1, next.mp - curr.mp, 0)
  | .read =>
    (next.ip - curr.ip - 1, next.mp - curr.mp, next.memVal - curr.memVal)
  | .loopBegin =>
    (curr.memVal * (next.ip - curr.ip - 2) +
        (curr.memVal * curr.memValInv - 1) * (next.ip - curr.nextInstr),
      next.mp - curr.mp, next.memVal - curr.memVal)
  | .loopEnd =>
    ((curr.memVal * curr.memValInv - 1) * (next.ip - curr.ip - 2) +
        curr.memVal * (next.ip - curr.nextInstr),
      next.mp - curr.mp, next.memVal - curr.memVal)

/-- The deselector-weighted accumulation of the three opcode slots:
for each opcode the slot constraints are multiplied by
`if_not_instr(op, CurrInstr) · CurrInstr` and summed. -/
def processorOpcodeSlots {F : Type} [CommRing F]
    (curr next : ProcessorVals F) : F × F × F :=
  OpCode.values.foldl
    (fun acc instr =>
      let ic := instrConstraintsSlots instr curr next
      let des := if_not_instr instr curr.currInstr
      (acc.1 + des * ic.1 * curr.currInstr,
       acc.2.1 + des * ic.2.1 * curr.currInstr,
       acc.2.2 + des * ic.2.2 * curr.currInstr))
    (0, 0, 0)

/-- `ProcessorBaseColumn::transition_constraints`: the three accumulated
opcode slots followed by the cycle-independent constraints, in source
order. -/
def processor_transition_constraints {F : Type} [CommRing F]
    (curr next : ProcessorVals F) : List F :=
  let s := processorOpcodeSlots curr next
  [s.1, s.2.1, s.2.2,
   next.cycle - curr.cycle - 1,
   curr.memVal * (curr.memVal * curr.memValInv - 1),
   curr.memValInv * (curr.memVal * curr.memValInv - 1),
   (next.dummy - 1) * next.dummy,
   instr_zerofier curr.currInstr * (curr.dummy - 1) +
     curr.currInstr * curr.dummy]

/-- The `MemoryPermutation` transition constraint of
`ProcessorExtensionColumn::transition_constraints` (constraints.rs lines
233–242), transcribed exactly: note the whole expression is a single
product — the `Dummy`-gated clause is multiplied, not added.  Arguments
are the current row's `Cycle`, `Mp`, `MemVal`, `CurrInstr`, `Dummy`
columns and the current/next values of the `MemoryPermutation` extension
column. -/
def processor_memory_permutation_transition {F : Type} [CommRing F]
    (ch : Challenges F)
    (cycle mp memVal currInstr dummy permCurr permNext : F) : F :=
  currInstr *
      (permCurr * (ch.beta - ch.d * cycle - ch.e * mp - ch.f * memVal) -
        permNext) *
    dummy *
    (permCurr - permNext)

/-!
## Verifier pipeline (`src/verifier.rs`)

`Proof::verify` is embedded as a function of the proof data with the
external collaborators gathered into an `Oracles` bundle:

* the public coin (`random.rs`, not part of the sources) is modelled from
  the spec as an append-only list of absorbed blobs, with `draw`,
  `seed_leading_zeros` and the query-position RNG as opaque functions of
  the coin state;
* `FriVerifier::new` / `FriVerifier::verify`, Merkle path verification
  and row hashing are opaque functions;
* `ood_constraint_evaluation` depends on the constraint evaluations of
  the `Air`, so inside `verify` it is abstracted as a function of the
  coin state (from which challenges and composition coefficients are
  drawn) and of the out-of-domain point `z`; the concrete computation it
  performs is embedded separately below, over the list of per-constraint
  `(evaluation at z, degree)` pairs.

`A::Fp` and `A::Fq` are conflated into a single ring `F` (the `Fp → Fq`
embedding of the source is the identity here).  Rust panics are modelled
as `none`.
-/

/-- Errors returned by `Proof::verify` (`enum VerificationError`); the
inner `fri::VerificationError` is opaque and carried as a number. -/
inductive VerificationError : Type
  | inconsistentOodConstraintEvaluations
  | friVerification (inner : ℕ)
  | baseTraceQueryDoesNotMatchCommitment
  | extensionTraceQueryDoesNotMatchCommitment
  | compositionTraceQueryDoesNotMatchCommitment
  | friProofOfWork
  deriving DecidableEq

/-- A value absorbed into the public coin.  Modelled from the spec: the
transcript is an append-only sequence of absorbed values
(`seed` / `reseed` of `PublicCoin`, which lives in `random.rs`, outside
the sources). -/
inductive Blob (F : Type) : Type
  | seedInit
  | baseCommit (h : ℕ)
  | extCommit (h : ℕ)
  | compCommit (h : ℕ)
  | oodCurr (v : List F)
  | oodNext (v : List F)
  | oodEvals (v : List F)
  | powNonce (n : ℕ)
  | friLayer (h : ℕ)
  deriving DecidableEq

/-- The public-coin state: the list of absorbed blobs, oldest first. -/
abbrev CoinState (F : Type) : Type := List (Blob F)

/-- `Proof.trace_queries`: the three row-major value arrays and the three
Merkle proof arrays.  A Merkle proof is modelled in parsed form
(`proof.parse::<D>()`), a list of node hashes whose head is the leaf. -/
structure TraceQueries (F : Type) : Type where
  baseTraceValues : List F
  extensionTraceValues : List F
  compositionTraceValues : List F
  baseTraceProofs : List (List ℕ)
  extensionTraceProofs : List (List ℕ)
  compositionTraceProofs : List (List ℕ)

/-- The proof fields consumed by `Proof::verify`. -/
structure ProofData (F : Type) : Type where
  baseTraceCommitment : ℕ
  extensionTraceCommitment : Option ℕ
  compositionTraceCommitment : ℕ
  oodTraceStates : List F × List F
  oodConstraintEvaluations : List F
  traceQueries : TraceQueries F
  powNonce : ℕ
  numQueries : ℕ
  grindingFactor : ℕ

/-- The `Air` quantities `verify` reads: `trace_len`,
`lde_blowup_factor`, `ce_blowup_factor` and the column counts of
`trace_info`. -/
structure AirParams : Type where
  traceLen : ℕ
  ldeBlowupFactor : ℕ
  ceBlowupFactor : ℕ
  numBaseColumns : ℕ
  numExtensionColumns : ℕ

/-- The external collaborators of `verify`, as opaque functions. -/
structure Oracles (F : Type) : Type where
  drawFq : CoinState F → F
  leadingZeros : CoinState F → ℕ
  friNew : CoinState F → Except ℕ Unit
  friNewCoin : CoinState F → CoinState F
  drawQueryPositions : CoinState F → ℕ → ℕ → List ℕ
  rowHash : List F → ℕ
  merkleVerify : ℕ → List ℕ → ℕ → Bool
  deepEvals : List ℕ → Option (List F)
  friVerify : List ℕ → List F → Except ℕ Unit

/-- The fold of verifier.rs lines 102–110: starting from `res = 0`,
`acc = 1`, do `res += value * acc; acc *= z` over `ood_constraint_evaluations`. -/
def providedOodFold {F : Type} [CommRing F] (z : F) (vals : List F) : F :=
  (vals.foldl (fun (p : F × F) value => (p.1 + value * p.2, p.2 * z)) (0, 1)).1

/-- Coin state after seeding with the public inputs, trace info and
options (one opaque blob) and reseeding with the base trace commitment. -/
def coinAfterBase {F : Type} (prf : ProofData F) : CoinState F :=
  [Blob.seedInit, Blob.baseCommit prf.baseTraceCommitment]

/-- Coin state after the optional extension-commitment reseed. -/
def coinAfterExt {F : Type} (prf : ProofData F) : CoinState F :=
  match prf.extensionTraceCommitment with
  | some h => coinAfterBase prf ++ [Blob.extCommit h]
  | none => coinAfterBase prf

/-- Coin state after reseeding with the composition trace commitment. -/
def coinAfterComp {F : Type} (prf : ProofData F) : CoinState F :=
  coinAfterExt prf ++ [Blob.compCommit prf.compositionTraceCommitment]

/-- The out-of-domain point `z = public_coin.draw()`. -/
def zDrawn {F : Type} (O : Oracles F) (prf : ProofData F) : F :=
  O.drawFq (coinAfterComp prf)

/-- Coin state after reseeding with the two out-of-domain trace states. -/
def coinAfterOodStates {F : Type} (prf : ProofData F) : CoinState F :=
  coinAfterComp prf ++
    [Blob.oodCurr prf.oodTraceStates.1, Blob.oodNext prf.oodTraceStates.2]

/-- Coin state after reseeding with `ood_constraint_evaluations`. -/
def coinAfterOodEvals {F : Type} (prf : ProofData F) : CoinState F :=
  coinAfterOodStates prf ++ [Blob.oodEvals prf.oodConstraintEvaluations]

/-- The proof-of-work block of `verify` (verifier.rs lines 124–129): when
`grinding_factor` is nonzero, reseed with `pow_nonce` and fail with
`FriProofOfWork` when `seed_leading_zeros()` is below the grinding
factor; when it is zero the block is skipped and the coin is unchanged. -/
def powStage {F : Type} (grindingFactor : ℕ)
    (leadingZeros : CoinState F → ℕ) (coin : CoinState F) (nonce : ℕ) :
    Except VerificationError (CoinState F) :=
  if grindingFactor ≠ 0 then
    if leadingZeros (coin ++ [Blob.powNonce nonce]) < grindingFactor then
      .error .friProofOfWork
    else .ok (coin ++ [Blob.powNonce nonce])
  else .ok coin

/-- The body of `verify_positions` (verifier.rs lines 269–281), iterating
over the zipped triples: compare `proof[0]` (a panic when the parsed
proof is empty, hence `none`) with the hash of the row, then run
`MerkleTree::verify`. -/
def vpLoop {F : Type} (rowHash : List F → ℕ)
    (merkleVerify : ℕ → List ℕ → ℕ → Bool) (commitment : ℕ) :
    List ((ℕ × List ℕ) × List F) → Option (Except Unit Unit)
  | [] => some (.ok ())
  | ((position, proof), row) :: rest =>
    match proof.head? with
    | none => none
    | some expectedLeaf =>
      if expectedLeaf ≠ rowHash row then some (.error ())
      else if merkleVerify commitment proof position then
        vpLoop rowHash merkleVerify commitment rest
      else some (.error ())

/-- `verify_positions` from `verifier.rs`: the iteration domain is
`positions.iter().zip(proofs).zip(rows)` — the zip-truncated common
prefix of the three arrays. -/
def verify_positions {F : Type} (rowHash : List F → ℕ)
    (merkleVerify : ℕ → List ℕ → ℕ → Bool) (commitment : ℕ)
    (positions : List ℕ) (rows : List (List F)) (proofs : List (List ℕ)) :
    Option (Except Unit Unit) :=
  vpLoop rowHash merkleVerify commitment ((positions.zip proofs).zip rows)

/-- Fuel-indexed body of `chunks`. -/
def chunksGo {α : Type} : ℕ → ℕ → List α → List (List α)
  | _, _, [] => []
  | 0, _, _ :: _ => []
  | fuel + 1, k, a :: l =>
    if k = 0 then []
    else (a :: l).take k :: chunksGo fuel k ((a :: l).drop k)

/-- Model of `slice::chunks(k)`: groups of `k` elements, the last group
possibly shorter.  (Rust panics on `k = 0`; here the result is `[]`, a
case no call site of `verify` reaches.) -/
def chunks {α : Type} (k : ℕ) (l : List α) : List (List α) :=
  chunksGo l.length k l

/-- The `verify_positions(..).map_err(|_| e)?` pattern of `verify`: on
`Ok` continue with `k`, on a Merkle error fail with `e`, on a panic
propagate the panic. -/
def stepQuery {F : Type} (r : Option (Except Unit Unit))
    (e : VerificationError) (k : Option (Except VerificationError F)) :
    Option (Except VerificationError F) :=
  match r with
  | none => none
  | some (.error _) => some (.error e)
  | some (.ok _) => k

/-- The DEEP-composition and FRI tail of `verify` (verifier.rs lines
184–196): compute the DEEP evaluations (opaque, may panic) and delegate
to the FRI verifier, wrapping its error in `FriVerification`. -/
def friStage {F : Type} (O : Oracles F) (positions : List ℕ) :
    Option (Except VerificationError Unit) :=
  match O.deepEvals positions with
  | none => none
  | some evals =>
    match O.friVerify positions evals with
    | .error inner => some (.error (.friVerification inner))
    | .ok _ => some (.ok ())

/-- The query phase of `verify` (verifier.rs lines 131–196): draw the
query positions, chunk the three value arrays into rows, authenticate
them against the three commitments (the extension trace only when its
commitment is present), then compute the DEEP evaluations and delegate to
the FRI verifier. -/
def queriesStage {F : Type} (O : Oracles F) (air : AirParams)
    (prf : ProofData F) (coin : CoinState F) :
    Option (Except VerificationError Unit) :=
  let positions := O.drawQueryPositions coin prf.numQueries
    (air.traceLen * air.ldeBlowupFactor)
  let baseRows := chunks air.numBaseColumns prf.traceQueries.baseTraceValues
  let extRows := if 0 < air.numExtensionColumns then
    chunks air.numExtensionColumns prf.traceQueries.extensionTraceValues else []
  let compRows := chunks air.ceBlowupFactor prf.traceQueries.compositionTraceValues
  stepQuery
    (verify_positions O.rowHash O.merkleVerify prf.baseTraceCommitment
      positions baseRows prf.traceQueries.baseTraceProofs)
    .baseTraceQueryDoesNotMatchCommitment
    (match prf.extensionTraceCommitment with
     | some extCommitment =>
       stepQuery
         (verify_positions O.rowHash O.merkleVerify extCommitment
           positions extRows prf.traceQueries.extensionTraceProofs)
         .extensionTraceQueryDoesNotMatchCommitment
         (stepQuery
           (verify_positions O.rowHash O.merkleVerify
             prf.compositionTraceCommitment positions compRows
             prf.traceQueries.compositionTraceProofs)
           .compositionTraceQueryDoesNotMatchCommitment
           (friStage O positions))
     | none =>
       stepQuery
         (verify_positions O.rowHash O.merkleVerify
           prf.compositionTraceCommitment positions compRows
           prf.traceQueries.compositionTraceProofs)
         .compositionTraceQueryDoesNotMatchCommitment
         (friStage O positions))

/-- The pipeline of `verify` after the OOD consistency check:
`FriVerifier::new` (which absorbs the FRI layer commitments into the
coin), the proof-of-work block, and the query phase. -/
def verifyTail {F : Type} (O : Oracles F) (air : AirParams)
    (prf : ProofData F) (coinAfterOod : CoinState F) :
    Option (Except VerificationError Unit) :=
  match O.friNew coinAfterOod with
  | .error inner => some (.error (.friVerification inner))
  | .ok _ =>
    match powStage prf.grindingFactor O.leadingZeros
        (O.friNewCoin coinAfterOod) prf.powNonce with
    | .error err => some (.error err)
    | .ok coin => queriesStage O air prf coin

/-- `Proof::verify` from `verifier.rs`: seed and reseed the coin in the
fixed order, draw `z`, recompute the out-of-domain constraint evaluation
(`calculatedOod`, a panic when `none`), reseed with the provided
evaluations, fold them in `z`, fail with
`InconsistentOodConstraintEvaluations` on mismatch, and otherwise run the
rest of the pipeline. -/
def verify {F : Type} [CommRing F] [DecidableEq F] (O : Oracles F)
    (air : AirParams) (prf : ProofData F)
    (calculatedOod : CoinState F → F → Option F) :
    Option (Except VerificationError Unit) :=
  match calculatedOod (coinAfterOodStates prf) (zDrawn O prf) with
  | none => none
  | some expected =>
    if expected ≠ providedOodFold (zDrawn O prf) prf.oodConstraintEvaluations
    then some (.error .inconsistentOodConstraintEvaluations)
    else verifyTail O air prf (coinAfterOodEvals prf)

/-- The per-constraint data consumed by `ood_constraint_evaluation`:
`(evaluation at the point, degree, divisor value, divisor degree)`.  The
chain lists boundary, transition and terminal constraints in order, with
the divisor values of verifier.rs lines 222–227:
`(x − 1)⁻¹`, `(x − g⁻¹)·Z_H(x)⁻¹`, `(x − g⁻¹)⁻¹` and divisor degrees `1`,
`trace_len − 1`, `1`. -/
def oodChain {F : Type} [Field F]
    (boundary transition terminal : List (F × ℕ)) (traceLen : ℕ)
    (groupGenInv vanishEval x : F) : List (F × ℕ × F × ℕ) :=
  boundary.map (fun c => (c.1, c.2, (x - 1)⁻¹, 1))
    ++ transition.map (fun c =>
        (c.1, c.2, (x - groupGenInv) * vanishEval⁻¹, traceLen - 1))
    ++ terminal.map (fun c => (c.1, c.2, (x - groupGenInv)⁻¹, 1))

/-- The loop of `ood_constraint_evaluation` (verifier.rs lines 243–258):
for each constraint, `quotient = evaluation * divisor`,
`evaluation_degree = degree * trace_degree - divisor_degree` (a usize
underflow — hence a panic — when negative), the
`assert!(evaluation_degree <= composition_degree)`, then a coefficient
pair is popped off the END of the coefficient vector
(`pop().unwrap()`, a panic when exhausted) and
`quotient * (alpha * x^degree_adjustment + beta)` is accumulated. -/
def oodLoop {F : Type} [CommRing F] (x : F) (traceDegree compositionDegree : ℕ) :
    F → List (F × ℕ × F × ℕ) → List (F × F) → Option F
  | acc, [], _ => some acc
  | acc, c :: rest, coefficients =>
    let quotient := c.1 * c.2.2.1
    if c.2.1 * traceDegree < c.2.2.2 then none
    else if compositionDegree < c.2.1 * traceDegree - c.2.2.2 then none
    else
      let degreeAdjustment := compositionDegree - (c.2.1 * traceDegree - c.2.2.2)
      match coefficients.getLast? with
      | none => none
      | some ab =>
        oodLoop x traceDegree compositionDegree
          (acc + quotient * (ab.1 * x ^ degreeAdjustment + ab.2))
          rest coefficients.dropLast

/-- `ood_constraint_evaluation` from `verifier.rs`, over the lists of
`(evaluation at x, degree)` pairs of the boundary, transition and
terminal constraints.  The three divisor inverses are
`inverse().unwrap()` calls: a panic (`none`) when the inverted value is
zero. -/
def ood_constraint_evaluation {F : Type} [Field F] [DecidableEq F]
    (boundary transition terminal : List (F × ℕ))
    (coefficients : List (F × F)) (traceLen compositionDegree : ℕ)
    (groupGenInv vanishEval x : F) : Option F :=
  if x - 1 = 0 ∨ x - groupGenInv = 0 ∨ vanishEval = 0 then none
  else
    oodLoop x (traceLen - 1) compositionDegree 0
      (oodChain boundary transition terminal traceLen groupGenInv vanishEval x)
      coefficients

/-- The summand of the out-of-domain evaluation: for constraint data `c`
and coefficient pair `ab`,
`evaluation · divisor · (alpha · x^{d_c} + beta)` with
`d_c = composition_degree − (degree · trace_degree − divisor_degree)`. -/
def oodTerm {F : Type} [CommRing F] (compositionDegree traceDegree : ℕ)
    (x : F) (c : F × ℕ × F × ℕ) (ab : F × F) : F :=
  c.1 * c.2.2.1 *
    (ab.1 * x ^ (compositionDegree - (c.2.1 * traceDegree - c.2.2.2)) + ab.2)

/-- Recogniser for the `]` opcode, used to count loop closers. -/
def isLoopEnd : OpCode → Bool
  | .loopEnd => true
  | _ => false

/-- Recogniser for the `[` opcode, used to count loop openers. -/
def isLoopBegin : OpCode → Bool
  | .loopBegin => true
  | _ => false

/-- `97` is prime; gives `ZMod 97` its field structure for the concrete
verifier instances below. -/
instance : Fact (Nat.Prime 97) := ⟨by norm_num⟩

/-- Trivial concrete collaborators used to instantiate the verifier
theorems on closed inputs. -/
def demoOracles : Oracles (ZMod 97) where
  drawFq := fun _ => 0
  leadingZeros := fun _ => 0
  friNew := fun _ => .ok ()
  friNewCoin := fun c => c
  drawQueryPositions := fun _ _ _ => []
  rowHash := fun _ => 0
  merkleVerify := fun _ _ _ => true
  deepEvals := fun _ => some []
  friVerify := fun _ _ => .ok ()

/-- Empty trace queries. -/
def demoQueries : TraceQueries (ZMod 97) := ⟨[], [], [], [], [], []⟩

/-- Small air parameters. -/
def demoAir : AirParams := ⟨2, 4, 2, 1, 0⟩

/-- A concrete proof record with no grinding. -/
def demoProof : ProofData (ZMod 97) :=
  { baseTraceCommitment := 0, extensionTraceCommitment := none,
    compositionTraceCommitment := 0, oodTraceStates := ([], []),
    oodConstraintEvaluations := [], traceQueries := demoQueries,
    powNonce := 0, numQueries := 0, grindingFactor := 0 }

/-- The same proof record with grinding factor `1`. -/
def demoProofPow : ProofData (ZMod 97) :=
  { demoProof with grindingFactor := 1 }

/-- A constant out-of-domain recomputation returning `1`. -/
def demoOodOne : CoinState (ZMod 97) → ZMod 97 → Option (ZMod 97) :=
  fun _ _ => some 1

/-- A constant out-of-domain recomputation returning `0`. -/
def demoOodZero : CoinState (ZMod 97) → ZMod 97 → Option (ZMod 97) :=
  fun _ _ => some 0

/-!
## Theorems
-/

/-- **C1** (code bug).  The round-trip law fails: for the syntactically
valid source `","` with input stream `[0x41]`, simulation completes (the
compiled program is `[44]`, the padded trace has four processor rows),
yet the third processor transition constraint — the `MemVal` slot, whose
`,`-branch is `MemVal.next() − MemVal.curr()` in constraints.rs line 74 —
evaluates to `1326528 · 65 · 44 = 3793870080 ≠ 0` on the non-final row
pair `(0, 1)`: the VM writes the read byte `0x41` into the cell
(`mem_val` goes from `0` to `65`), which the constraint forbids.  The
`Dummy` values supplied to the constraint are the AIR-coherent ones
(`0` for the real row, `1` for the halt row); the violated slot does not
read them. -/
theorem c1_read_transition_constraint_violated :
    compile [','] = some [44] ∧
    (simulate 4 [44] [65]).res?.isSome = true ∧
    ((simulate 4 [44] [65]).res?.getD ⟨[], [], [], [], []⟩).processor.length = 4 ∧
    (processor_transition_constraints
        ((((simulate 4 [44] [65]).res?.getD
            ⟨[], [], [], [], []⟩).processor.getD 0 ⟨0,0,0,0,0,0,0⟩).toVals 0)
        ((((simulate 4 [44] [65]).res?.getD
            ⟨[], [], [], [], []⟩).processor.getD 1 ⟨0,0,0,0,0,0,0⟩).toVals 1)).getD 2 0 =
      (3793870080 : Fp) ∧
    (3793870080 : Fp) ≠ 0 := by
  decide

/-- **C2 counterexample.**  The processor-side `MemoryPermutation`
transition constraint does not vanish exactly on the claimed condition:
at a non-padding row (`Dummy = 0`, `CurrInstr = 62`) whose permutation
column stays `1` while the accumulation factor is `5` (challenges
`Beta = 5`, `D = E = F = 0`), the claimed condition is false — the
permutation should have been multiplied by `5` — yet the constraint
evaluates to `0`, because the source multiplies the `Dummy`-gated clause
into the product instead of adding it. -/
theorem c2_counterexample :
    ¬ (processor_memory_permutation_transition
          (⟨0, 5, 0, 0, 0, 0, 0, 0, 0, 0, 0⟩ : Challenges Fp)
          0 0 0 62 0 1 1 = 0 ↔
        (((0 : Fp) = 0 →
            (1 : Fp) = 1 * ((5 : Fp) - 0 * 0 - 0 * 0 - 0 * 0)) ∧
         ((0 : Fp) = 1 → (1 : Fp) = 1))) := by
  decide

/-- **C2 amended.**  The constraint of constraints.rs lines 233–242 is
the product `CurrInstr · (P·factor − P') · Dummy · (P − P')`; over a
field it vanishes iff `CurrInstr = 0`, or `Dummy = 0`, or the next
permutation value is the current one times
`(Beta − D·Cycle − E·Mp − F·MemVal)`, or it is unchanged.  In particular
it vanishes on every row with `Dummy = 0` regardless of the permutation
update — it is not the `Dummy`-gated sum of the two disjuncts. -/
theorem c2_amended_product_vanishing (F : Type) [Field F]
    (ch : Challenges F) (cycle mp memVal currInstr dummy permCurr permNext : F) :
    processor_memory_permutation_transition ch cycle mp memVal currInstr
        dummy permCurr permNext = 0 ↔
      currInstr = 0 ∨ dummy = 0 ∨
        permNext = permCurr * (ch.beta - ch.d * cycle - ch.e * mp - ch.f * memVal) ∨
        permNext = permCurr := by
  unfold processor_memory_permutation_transition
  rw [mul_eq_zero, mul_eq_zero, mul_eq_zero, sub_eq_zero, sub_eq_zero]
  constructor
  · rintro (((h | h) | h) | h)
    · exact Or.inl h
    · exact Or.inr (Or.inr (Or.inl h.symm))
    · exact Or.inr (Or.inl h)
    · exact Or.inr (Or.inr (Or.inr h.symm))
  · rintro (h | h | h | h)
    · exact Or.inl (Or.inl (Or.inl h))
    · exact Or.inl (Or.inr h)
    · exact Or.inl (Or.inl (Or.inr h.symm))
    · exact Or.inr h.symm

/-- **C3 counterexample.**  `compile` does not detect a loop stack left
non-empty at end of source: on `"["` it succeeds, returning the program
`[91, 0]` with the placeholder jump cell never patched, instead of
failing. -/
theorem c3_counterexample : compile ['['] = some [91, 0] := by
  decide

/-- **C4** (code bug).  The final halt-sentinel row of `simulate` builds
`MemValInv` with `mem_val.inverse().unwrap()` (vm.rs line 214): when the
final memory value is zero the simulator aborts instead of emitting
`MemValInv = 0`.  For the program `[62]` (source `">"`), which halts with
`mem_val = tape[1] = 0`, simulation panics; for `[43]` (source `"+"`),
which halts with `mem_val = 1`, it completes — the main loop itself uses
`unwrap_or_else(zero)` and is not affected. -/
theorem c4_final_row_zero_inverse_aborts :
    simulate 2 [62] [] = .abort ∧
    (simulate 2 [43] []).res?.isSome = true := by
  decide

/-- **C10.**  `simulate` reads `program[0]` unconditionally before its
main loop: on the empty program it aborts (for every fuel and input)
instead of returning a trace; register initialisation succeeds exactly on
non-empty programs, and for a one-element program `next_instr` is
initialised to `0`. -/
theorem c10_simulate_empty_program_aborts :
    (∀ (fuel : ℕ) (input : List ℕ), simulate fuel [] input = .abort) ∧
    (∀ program : List ℕ, (initialRegister program).isSome ↔ program ≠ []) ∧
    (∀ a : ℕ, (initialRegister [a]).map Register.nextInstr = some 0) := by
  refine ⟨fun fuel input => rfl, fun program => ?_, fun a => rfl⟩
  cases program <;> simp [initialRegister]

/-- Reindexing of an existential over `ℕ` whose `0` instance fails. -/
theorem exists_succ_shift {P : ℕ → Prop} (h0 : ¬ P 0) :
    (∃ k, P k) ↔ ∃ j, P (j + 1) := by
  constructor
  · rintro ⟨k, hk⟩
    cases k with
    | zero => exact absurd hk h0
    | succ j => exact ⟨j, hk⟩
  · rintro ⟨j, hj⟩
    exact ⟨j + 1, hj⟩

/-- The compiler loop fails exactly when some prefix of the remaining
opcodes contains more `]` than `[` plus the available stack depth. -/
theorem compileGo_none_iff (ops : List OpCode) :
    ∀ (program stack : List ℕ),
      compileGo ops program stack = none ↔
        ∃ k, ((ops.take k).countP isLoopBegin + stack.length <
          (ops.take k).countP isLoopEnd) := by
  induction ops with
  | nil =>
    intro program stack
    simp [compileGo]
  | cons op rest ih =>
    intro program stack
    cases op
    case loopBegin =>
      simp only [compileGo]
      rw [ih]
      conv_rhs => rw [exists_succ_shift (by simp)]
      refine exists_congr fun j => ?_
      simp [List.take_succ_cons, List.countP_cons, List.length_cons,
        isLoopBegin, isLoopEnd]
      omega
    case loopEnd =>
      cases stack with
      | nil =>
        simp only [compileGo]
        constructor
        · intro _
          exact ⟨1, by simp [isLoopBegin, isLoopEnd]⟩
        · intro _
          trivial
      | cons last stack =>
        simp only [compileGo]
        rw [ih]
        conv_rhs => rw [exists_succ_shift (by simp)]
        refine exists_congr fun j => ?_
        simp [List.take_succ_cons, List.countP_cons, List.length_cons,
          isLoopBegin, isLoopEnd]
        omega
    all_goals
      simp only [compileGo]
      rw [ih]
      conv_rhs => rw [exists_succ_shift (by simp)]
      refine exists_congr fun j => ?_
      simp [List.take_succ_cons, List.countP_cons, List.length_cons,
        isLoopBegin, isLoopEnd]

/-- **C3 amended.**  `compile` fails (the `expect` panic in the `]` arm)
exactly when some prefix of the lexed opcodes contains more `]` than `[`
— i.e. when a `]` is scanned while the loop stack is empty.  A loop stack
left non-empty at end of source is not detected: such a source (no
close-heavy prefix) compiles successfully, with its placeholder cells
unpatched. -/
theorem c3_amended_unmatched_close_only (source : List Char) :
    compile source = none ↔
      ∃ k, ((lex source).take k).countP isLoopBegin <
        ((lex source).take k).countP isLoopEnd := by
  unfold compile
  rw [compileGo_none_iff]
  simp

/-- `isP2Go` only accepts powers of two. -/
theorem isP2Go_pow : ∀ fuel v, isP2Go fuel v = true → ∃ k, v = 2 ^ k := by
  intro fuel
  induction fuel with
  | zero =>
    intro v h
    match v with
    | 0 => simp [isP2Go] at h
    | 1 => exact ⟨0, rfl⟩
    | w + 2 => simp [isP2Go] at h
  | succ f ihf =>
    intro v h
    match v with
    | 0 => simp [isP2Go] at h
    | 1 => exact ⟨0, rfl⟩
    | w + 2 =>
      simp only [isP2Go] at h
      split at h
      · obtain ⟨k, hk⟩ := ihf _ h
        refine ⟨k + 1, ?_⟩
        have h2 : w + 2 = 2 * ((w + 2) / 2) := by omega
        rw [h2, hk]
        ring
      · exact absurd h (by simp)

/-- `nextP2Go` keeps the accumulator a power of two. -/
theorem nextP2Go_pow : ∀ fuel p v, (∃ j, p = 2 ^ j) →
    ∃ k, nextP2Go fuel p v = 2 ^ k := by
  intro fuel
  induction fuel with
  | zero =>
    intro p v hp
    simpa [nextP2Go] using hp
  | succ f ihf =>
    intro p v hp
    simp only [nextP2Go]
    split
    · exact hp
    · obtain ⟨j, hj⟩ := hp
      exact ihf (2 * p) v ⟨j + 1, by rw [hj]; ring⟩

/-- With enough fuel, `nextP2Go` reaches at least `v`. -/
theorem nextP2Go_ge : ∀ fuel p v, v ≤ p * 2 ^ fuel → v ≤ nextP2Go fuel p v := by
  intro fuel
  induction fuel with
  | zero =>
    intro p v h
    simpa [nextP2Go] using h
  | succ f ihf =>
    intro p v h
    simp only [nextP2Go]
    split
    · assumption
    · refine ihf (2 * p) v ?_
      calc v ≤ p * 2 ^ (f + 1) := h
        _ = 2 * p * 2 ^ f := by ring

/-- `nextP2Go` never overshoots a power-of-two bound above both inputs. -/
theorem nextP2Go_min : ∀ fuel p v k, (∃ j, p = 2 ^ j) → p ≤ 2 ^ k →
    v ≤ 2 ^ k → nextP2Go fuel p v ≤ 2 ^ k := by
  intro fuel
  induction fuel with
  | zero =>
    intro p v k _ hp _
    simpa [nextP2Go] using hp
  | succ f ihf =>
    intro p v k hpow hp hv
    simp only [nextP2Go]
    split
    · exact hp
    · obtain ⟨j, hj⟩ := hpow
      have hlt : p < v := by omega
      have hjk : j < k := by
        have : (2 : ℕ) ^ j < 2 ^ k := by omega
        exact (Nat.pow_lt_pow_iff_right (by norm_num)).mp this
      refine ihf (2 * p) v k ⟨j + 1, by rw [hj]; ring⟩ ?_ hv
      have : (2 : ℕ) ^ (j + 1) ≤ 2 ^ k := Nat.pow_le_pow_right (by norm_num) hjk
      calc 2 * p = 2 ^ (j + 1) := by rw [hj]; ring
        _ ≤ 2 ^ k := this

/-- `ceil_power_of_two v` is the smallest power of two that is greater
than or equal to `v`. -/
theorem ceil_power_of_two_spec (v : ℕ) :
    (∃ k, ceil_power_of_two v = 2 ^ k) ∧ v ≤ ceil_power_of_two v ∧
      ∀ k, v ≤ 2 ^ k → ceil_power_of_two v ≤ 2 ^ k := by
  unfold ceil_power_of_two
  by_cases h : is_power_of_two v = true
  · simp only [h, if_true]
    exact ⟨isP2Go_pow v v h, le_refl v, fun _ h2 => h2⟩
  · simp only [h]
    have hpow1 : ∃ j, (1 : ℕ) = 2 ^ j := ⟨0, rfl⟩
    refine ⟨?_, ?_, ?_⟩
    · simpa using nextP2Go_pow v 1 v hpow1
    · have := nextP2Go_ge v 1 v (by simpa using (Nat.lt_two_pow v).le)
      simpa [next_power_of_two] using this
    · intro k hk
      have := nextP2Go_min v 1 v k hpow1 Nat.one_le_two_pow hk
      simpa [next_power_of_two] using this

/-- The padding loop extends a non-empty table by exactly its fuel. -/
theorem padGo_length {α : Type} (mk : α → α) :
    ∀ (fuel : ℕ) (rows : List α), rows ≠ [] →
      (padGo mk fuel rows).map List.length = some (rows.length + fuel) := by
  intro fuel
  induction fuel with
  | zero =>
    intro rows _
    simp [padGo]
  | succ f ihf =>
    intro rows h
    obtain ⟨ys, y, rfl⟩ := (List.eq_nil_or_concat rows).resolve_left h
    simp only [List.concat_eq_append]
    simp only [padGo, List.getLast?_concat]
    rw [ihf (ys ++ [y] ++ [mk y]) (by simp)]
    simp only [List.length_append, List.length_cons, List.length_nil,
      Option.some.injEq]
    omega

/-- **C8.**  The common padded row count of `simulate` —
`padding_len`, i.e. `ceil_power_of_two` of the maximum of the five
unpadded table lengths — is the smallest power of two greater than or
equal to that maximum, and each of the five padding functions extends its
table to exactly `N` rows (the three tables whose padders read
`last().unwrap()` must be non-empty, which holds for every table
`simulate` produces). -/
theorem c8_padding_row_count
    (proc : List ProcRow) (memory : List MemRow) (instr : List InstrRow)
    (inp out : List Fp) (N : ℕ)
    (h1 : proc ≠ []) (h2 : memory ≠ []) (h3 : instr ≠ [])
    (hN : N = padding_len proc.length memory.length instr.length
      inp.length out.length) :
    (∃ k, N = 2 ^ k) ∧
    ([proc.length, memory.length, instr.length, inp.length,
        out.length].foldl Nat.max 0 ≤ N) ∧
    (∀ k, [proc.length, memory.length, instr.length, inp.length,
        out.length].foldl Nat.max 0 ≤ 2 ^ k → N ≤ 2 ^ k) ∧
    (pad_processor_rows proc N).map List.length = some N ∧
    (pad_memory_rows memory N).map List.length = some N ∧
    (pad_instruction_rows instr N).map List.length = some N ∧
    (pad_input_rows inp N).length = N ∧
    (pad_output_rows out N).length = N := by
  subst hN
  simp only [padding_len]
  obtain ⟨hpow, hge, hmin⟩ := ceil_power_of_two_spec
    ([proc.length, memory.length, instr.length, inp.length,
      out.length].foldl Nat.max 0)
  have hbounds : proc.length ≤
      [proc.length, memory.length, instr.length, inp.length,
        out.length].foldl Nat.max 0 ∧
      memory.length ≤
        [proc.length, memory.length, instr.length, inp.length,
          out.length].foldl Nat.max 0 ∧
      instr.length ≤
        [proc.length, memory.length, instr.length, inp.length,
          out.length].foldl Nat.max 0 ∧
      inp.length ≤
        [proc.length, memory.length, instr.length, inp.length,
          out.length].foldl Nat.max 0 ∧
      out.length ≤
        [proc.length, memory.length, instr.length, inp.length,
          out.length].foldl Nat.max 0 := by
    simp only [List.foldl]
    refine ⟨?_, ?_, ?_, ?_, ?_⟩
    · exact le_trans (Nat.le_max_right 0 _)
        (le_trans (Nat.le_max_left _ _) (le_trans (Nat.le_max_left _ _)
          (le_trans (Nat.le_max_left _ _) (Nat.le_max_left _ _))))
    · exact le_trans (Nat.le_max_right _ _)
        (le_trans (Nat.le_max_left _ _) (le_trans (Nat.le_max_left _ _)
          (Nat.le_max_left _ _)))
    · exact le_trans (Nat.le_max_right _ _)
        (le_trans (Nat.le_max_left _ _) (Nat.le_max_left _ _))
    · exact le_trans (Nat.le_max_right _ _) (Nat.le_max_left _ _)
    · exact Nat.le_max_right _ _
  have hp := le_trans hbounds.1 hge
  have hm := le_trans hbounds.2.1 hge
  have hi := le_trans hbounds.2.2.1 hge
  have hinp := le_trans hbounds.2.2.2.1 hge
  have hout := le_trans hbounds.2.2.2.2 hge
  refine ⟨hpow, hge, hmin, ?_, ?_, ?_, ?_, ?_⟩
  · rw [pad_processor_rows, padGo_length _ _ _ h1]
    congr 1
    omega
  · rw [pad_memory_rows, padGo_length _ _ _ h2]
    congr 1
    omega
  · obtain ⟨ys, y, h4⟩ := (List.eq_nil_or_concat instr).resolve_left h3
    simp only [List.concat_eq_append] at h4
    have hL : instr.getLast? = some y := by
      rw [h4]
      exact List.getLast?_concat _
    rw [pad_instruction_rows, hL]
    simp only [Option.map_some', Option.some.injEq, List.length_append,
      List.length_replicate]
    omega
  · simp only [pad_input_rows, List.length_append, List.length_replicate]
    omega
  · simp only [pad_output_rows, List.length_append, List.length_replicate]
    omega

/-- Witness for C8 at the one-row tables. -/
theorem c8_padding_row_count_witness :
    (([(⟨0, 0, 0, 0, 0, 0, 0⟩ : ProcRow)] ≠ []) ∧
     ([(⟨0, 0, 0, 0⟩ : MemRow)] ≠ []) ∧
     ([(⟨0, 0, 0⟩ : InstrRow)] ≠ []) ∧
     (1 : ℕ) = padding_len 1 1 1 0 0) ∧
    ((∃ k, (1 : ℕ) = 2 ^ k) ∧
     ([1, 1, 1, 0, 0].foldl Nat.max 0 ≤ 1) ∧
     (∀ k, [1, 1, 1, 0, 0].foldl Nat.max 0 ≤ 2 ^ k → 1 ≤ 2 ^ k) ∧
     (pad_processor_rows [⟨0, 0, 0, 0, 0, 0, 0⟩] 1).map List.length = some 1 ∧
     (pad_memory_rows [⟨0, 0, 0, 0⟩] 1).map List.length = some 1 ∧
     (pad_instruction_rows [⟨0, 0, 0⟩] 1).map List.length = some 1 ∧
     (pad_input_rows [] 1).length = 1 ∧
     (pad_output_rows [] 1).length = 1) :=
  ⟨⟨by decide, by decide, by decide, by decide⟩,
    c8_padding_row_count [⟨0, 0, 0, 0, 0, 0, 0⟩] [⟨0, 0, 0, 0⟩] [⟨0, 0, 0⟩]
      [] [] 1 (by decide) (by decide) (by decide) (by decide)⟩

/-- The triple zip of `verify_positions` truncates to the common prefix. -/
theorem zip3_eq_zip3_take {F : Type} :
    ∀ (ps : List ℕ) (prs : List (List ℕ)) (rs : List (List F)),
      (ps.zip prs).zip rs =
        ((ps.take (min (min ps.length prs.length) rs.length)).zip
            (prs.take (min (min ps.length prs.length) rs.length))).zip
          (rs.take (min (min ps.length prs.length) rs.length)) := by
  intro ps
  induction ps with
  | nil => intro prs rs; simp
  | cons p ps ih =>
    intro prs rs
    cases prs with
    | nil => simp
    | cons pr prs =>
      cases rs with
      | nil => simp
      | cons r rs =>
        simp only [List.zip_cons_cons, List.length_cons, Nat.succ_min_succ,
          List.take_succ_cons]
        rw [ih prs rs]

/-- **C9.**  `verify_positions` iterates over
`positions.iter().zip(proofs).zip(rows)` — the zip-truncated common
prefix of the three arrays — so it inspects only
`min(min |positions| |proofs|) |rows|` entries and authenticates nothing
beyond them; in particular for a proof whose query-row and Merkle-proof
arrays are empty it returns `Ok` for every set of drawn query positions
(and the chunking of empty trace-query value arrays yields no rows at
all). -/
theorem c9_verify_positions_zip_truncation :
    (∀ (F : Type) (rowHash : List F → ℕ)
        (merkleVerify : ℕ → List ℕ → ℕ → Bool) (commitment : ℕ)
        (positions : List ℕ),
      verify_positions rowHash merkleVerify commitment positions [] [] =
        some (.ok ())) ∧
    (∀ (F : Type) (rowHash : List F → ℕ)
        (merkleVerify : ℕ → List ℕ → ℕ → Bool) (commitment : ℕ)
        (positions : List ℕ) (rows : List (List F)) (proofs : List (List ℕ)),
      verify_positions rowHash merkleVerify commitment positions rows proofs =
        verify_positions rowHash merkleVerify commitment
          (positions.take (min (min positions.length proofs.length) rows.length))
          (rows.take (min (min positions.length proofs.length) rows.length))
          (proofs.take (min (min positions.length proofs.length) rows.length))) ∧
    (∀ (α : Type) (k : ℕ), chunks k ([] : List α) = []) := by
  refine ⟨?_, ?_, ?_⟩
  · intro F rowHash merkleVerify commitment positions
    simp [verify_positions, vpLoop]
  · intro F rowHash merkleVerify commitment positions rows proofs
    unfold verify_positions
    rw [zip3_eq_zip3_take positions proofs rows]
  · intro α k
    rfl

/-- The fold of verifier.rs lines 102–110 computes
`r + acc · Σᵢ valsᵢ · zⁱ` from the running state `(r, acc)`. -/
theorem providedOodFold_loop {F : Type} [CommRing F] (z : F) :
    ∀ (vals : List F) (r acc : F),
      (vals.foldl (fun (p : F × F) value => (p.1 + value * p.2, p.2 * z))
          (r, acc)).1 =
        r + acc * ∑ i ∈ Finset.range vals.length, vals.getD i 0 * z ^ i := by
  intro vals
  induction vals with
  | nil =>
    intro r acc
    simp
  | cons v vs ih =>
    intro r acc
    simp only [List.foldl_cons, List.length_cons]
    rw [ih]
    rw [Finset.sum_range_succ']
    simp only [List.getD_cons_succ, List.getD_cons_zero, pow_zero, mul_one,
      pow_succ]
    have hs : (∑ i ∈ Finset.range vs.length, vs.getD i 0 * (z ^ i * z)) =
        z * ∑ i ∈ Finset.range vs.length, vs.getD i 0 * z ^ i := by
      rw [Finset.mul_sum]
      exact Finset.sum_congr rfl fun i _ => by ring
    rw [hs]
    ring

/-- `providedOodFold z vals = Σᵢ valsᵢ · zⁱ`. -/
theorem providedOodFold_eq {F : Type} [CommRing F] (z : F) (vals : List F) :
    providedOodFold z vals =
      ∑ i ∈ Finset.range vals.length, vals.getD i 0 * z ^ i := by
  simpa [providedOodFold] using providedOodFold_loop z vals 0 1

/-- `powStage` only ever fails with `FriProofOfWork`. -/
theorem powStage_error {F : Type} (gf : ℕ) (lz : CoinState F → ℕ)
    (coin : CoinState F) (nonce : ℕ) (e : VerificationError)
    (h : powStage gf lz coin nonce = .error e) : e = .friProofOfWork := by
  unfold powStage at h
  split at h
  · split at h
    · injection h with h2
      exact h2.symm
    · cases h
  · cases h

/-- `stepQuery` fails either with its own error kind or as its
continuation does. -/
theorem stepQuery_error {F : Type} (r : Option (Except Unit Unit))
    (e : VerificationError) (k : Option (Except VerificationError F))
    (e2 : VerificationError) (h : stepQuery r e k = some (.error e2)) :
    e2 = e ∨ k = some (.error e2) := by
  unfold stepQuery at h
  split at h
  · cases h
  · injection h with h2
    injection h2 with h3
    exact Or.inl h3.symm
  · exact Or.inr h

/-- `friStage` only ever fails with `FriVerification`. -/
theorem friStage_error {F : Type} (O : Oracles F) (positions : List ℕ)
    (e : VerificationError) (h : friStage O positions = some (.error e)) :
    ∃ inner, e = .friVerification inner := by
  unfold friStage at h
  split at h
  · cases h
  · split at h
    · injection h with h2
      injection h2 with h3
      exact ⟨_, h3.symm⟩
    · cases h

/-- The query phase only ever fails with a trace-query or FRI error. -/
theorem queriesStage_error_shape {F : Type} (O : Oracles F) (air : AirParams)
    (prf : ProofData F) (coin : CoinState F) (e : VerificationError)
    (h : queriesStage O air prf coin = some (.error e)) :
    e = .baseTraceQueryDoesNotMatchCommitment ∨
    e = .extensionTraceQueryDoesNotMatchCommitment ∨
    e = .compositionTraceQueryDoesNotMatchCommitment ∨
    ∃ inner, e = .friVerification inner := by
  unfold queriesStage at h
  rcases stepQuery_error _ _ _ _ h with h1 | h1
  · exact Or.inl h1
  · clear h
    split at h1
    · rcases stepQuery_error _ _ _ _ h1 with h2 | h2
      · exact Or.inr (Or.inl h2)
      · rcases stepQuery_error _ _ _ _ h2 with h3 | h3
        · exact Or.inr (Or.inr (Or.inl h3))
        · exact Or.inr (Or.inr (Or.inr (friStage_error _ _ _ h3)))
    · rcases stepQuery_error _ _ _ _ h1 with h2 | h2
      · exact Or.inr (Or.inr (Or.inl h2))
      · exact Or.inr (Or.inr (Or.inr (friStage_error _ _ _ h2)))


/-- The tail of the pipeline never reports an OOD inconsistency. -/
theorem verifyTail_error_not_ood {F : Type} (O : Oracles F) (air : AirParams)
    (prf : ProofData F) (c : CoinState F) :
    verifyTail O air prf c ≠
      some (.error .inconsistentOodConstraintEvaluations) := by
  intro h
  unfold verifyTail at h
  split at h
  · injection h with h2
    injection h2 with h3
    simp at h3
  · split at h
    next err heq =>
      injection h with h2
      injection h2 with h3
      subst h3
      have h4 := powStage_error _ _ _ _ _ heq
      simp at h4
    next coin heq =>
      rcases queriesStage_error_shape _ _ _ _ _ h with h1 | h1 | h1 | ⟨i, h1⟩ <;>
        simp_all

/-- **C5.**  After the coin is reseeded with `ood_constraint_evaluations`,
`verify` folds them into `provided = Σᵢ ood_eval_values[i] · zⁱ` (the
`acc`-fold of verifier.rs lines 102–110), and — given that the preceding
steps succeeded, i.e. the recomputation of the out-of-domain evaluation
returned `expected` rather than panicking — it returns
`Err(InconsistentOodConstraintEvaluations)` exactly when
`expected ≠ provided`: on mismatch it fails there, and no later stage of
the pipeline can produce that error kind. -/
theorem c5_ood_consistency_check {F : Type} [CommRing F] [DecidableEq F]
    (O : Oracles F) (air : AirParams) (prf : ProofData F)
    (calculatedOod : CoinState F → F → Option F) (expected : F)
    (h : calculatedOod (coinAfterOodStates prf) (zDrawn O prf) = some expected) :
    providedOodFold (zDrawn O prf) prf.oodConstraintEvaluations =
        (∑ i ∈ Finset.range prf.oodConstraintEvaluations.length,
          prf.oodConstraintEvaluations.getD i 0 * zDrawn O prf ^ i) ∧
      (verify O air prf calculatedOod =
          some (.error .inconsistentOodConstraintEvaluations) ↔
        expected ≠ providedOodFold (zDrawn O prf)
          prf.oodConstraintEvaluations) := by
  refine ⟨providedOodFold_eq _ _, ?_⟩
  unfold verify
  rw [h]
  change (if expected ≠ providedOodFold (zDrawn O prf)
        prf.oodConstraintEvaluations
      then some (Except.error
        VerificationError.inconsistentOodConstraintEvaluations)
      else verifyTail O air prf (coinAfterOodEvals prf)) = _ ↔ _
  by_cases hne : expected =
      providedOodFold (zDrawn O prf) prf.oodConstraintEvaluations
  · rw [if_neg (not_not_intro hne)]
    constructor
    · intro habs
      exact absurd habs (verifyTail_error_not_ood _ _ _ _)
    · intro habs
      exact absurd hne habs
  · rw [if_pos hne]
    exact ⟨fun _ => hne, fun _ => rfl⟩

/-- **C7.**  Given that the pipeline reaches the proof-of-work block
(the OOD recomputation returned a value, it matched the provided fold,
and the FRI verifier was constructed): when `grinding_factor ≠ 0` the
coin is reseeded with `pow_nonce` and `verify` returns
`Err(FriProofOfWork)` exactly when `seed_leading_zeros()` on the
reseeded coin is below the grinding factor — no later stage can produce
that error; when `grinding_factor = 0` the block leaves the coin
untouched (the nonce is never absorbed, no check is performed) and
`verify` never returns `FriProofOfWork`. -/
theorem c7_proof_of_work_check {F : Type} [CommRing F] [DecidableEq F]
    (O : Oracles F) (air : AirParams) (prf : ProofData F)
    (calculatedOod : CoinState F → F → Option F) (expected : F)
    (h1 : calculatedOod (coinAfterOodStates prf) (zDrawn O prf) = some expected)
    (h2 : expected = providedOodFold (zDrawn O prf) prf.oodConstraintEvaluations)
    (h3 : O.friNew (coinAfterOodEvals prf) = .ok ()) :
    (prf.grindingFactor ≠ 0 →
      (verify O air prf calculatedOod = some (.error .friProofOfWork) ↔
        O.leadingZeros (O.friNewCoin (coinAfterOodEvals prf) ++
            [Blob.powNonce prf.powNonce]) < prf.grindingFactor)) ∧
    (prf.grindingFactor = 0 →
      powStage 0 O.leadingZeros (O.friNewCoin (coinAfterOodEvals prf))
          prf.powNonce = .ok (O.friNewCoin (coinAfterOodEvals prf)) ∧
        verify O air prf calculatedOod ≠ some (.error .friProofOfWork)) := by
  have hv : verify O air prf calculatedOod =
      verifyTail O air prf (coinAfterOodEvals prf) := by
    unfold verify
    rw [h1]
    change (if expected ≠ providedOodFold (zDrawn O prf)
          prf.oodConstraintEvaluations
        then some (Except.error
          VerificationError.inconsistentOodConstraintEvaluations)
        else verifyTail O air prf (coinAfterOodEvals prf)) = _
    rw [if_neg (not_not_intro h2)]
  have hvt : verifyTail O air prf (coinAfterOodEvals prf) =
      match powStage prf.grindingFactor O.leadingZeros
          (O.friNewCoin (coinAfterOodEvals prf)) prf.powNonce with
      | .error err => some (.error err)
      | .ok coin => queriesStage O air prf coin := by
    unfold verifyTail
    rw [h3]
  rw [hv, hvt]
  constructor
  · intro hgf
    unfold powStage
    rw [if_pos hgf]
    by_cases hlz : O.leadingZeros (O.friNewCoin (coinAfterOodEvals prf) ++
        [Blob.powNonce prf.powNonce]) < prf.grindingFactor
    · rw [if_pos hlz]
      simp [hlz]
    · rw [if_neg hlz]
      constructor
      · intro habs
        rcases queriesStage_error_shape _ _ _ _ _ habs with h4 | h4 | h4 | ⟨i, h4⟩ <;>
          simp_all
      · intro habs
        exact absurd habs hlz
  · intro hgf
    rw [hgf]
    have hps : powStage 0 O.leadingZeros (O.friNewCoin (coinAfterOodEvals prf))
        prf.powNonce = .ok (O.friNewCoin (coinAfterOodEvals prf)) := by
      unfold powStage
      simp
    refine ⟨hps, ?_⟩
    rw [hps]
    intro habs
    rcases queriesStage_error_shape _ _ _ _ _ habs with h4 | h4 | h4 | ⟨i, h4⟩ <;>
      simp_all

/-- Closed form of the `ood_constraint_evaluation` loop: when every
constraint passes the degree checks and enough coefficient pairs remain,
the loop returns the accumulator plus the sum of
`evaluation · divisor · (alpha · x^{d_c} + beta)` over the constraints
zipped with the reversed coefficient list (the source pops coefficients
off the end of the vector). -/
theorem oodLoop_eq {F : Type} [CommRing F] (x : F) (td cd : ℕ) :
    ∀ (chain : List (F × ℕ × F × ℕ)) (coefficients : List (F × F)) (acc : F),
      (∀ c ∈ chain, c.2.2.2 ≤ c.2.1 * td ∧ c.2.1 * td - c.2.2.2 ≤ cd) →
      chain.length ≤ coefficients.length →
      oodLoop x td cd acc chain coefficients =
        some (acc + ((chain.zip coefficients.reverse).map
          (fun p => oodTerm cd td x p.1 p.2)).sum) := by
  intro chain
  induction chain with
  | nil =>
    intro coefficients acc _ _
    simp [oodLoop]
  | cons c rest ih =>
    intro coefficients acc hdeg hlen
    obtain ⟨hc1, hc2⟩ := hdeg c (by simp)
    have hne : coefficients ≠ [] := by
      intro h0
      rw [h0] at hlen
      simp at hlen
    obtain ⟨ys, ab, h4⟩ := (List.eq_nil_or_concat coefficients).resolve_left hne
    simp only [List.concat_eq_append] at h4
    subst h4
    simp only [oodLoop, List.getLast?_concat, List.dropLast_concat]
    rw [if_neg (by omega), if_neg (by omega)]
    rw [ih ys _ (fun d hd => hdeg d (List.mem_cons_of_mem _ hd))
      (by simp only [List.length_cons, List.length_append, List.length_nil] at hlen ⊢
          omega)]
    simp only [List.reverse_append, List.reverse_cons, List.reverse_nil,
      List.nil_append, List.singleton_append, List.zip_cons_cons,
      List.map_cons, List.sum_cons]
    rw [oodTerm]
    rw [add_assoc]

/-- The loop aborts whenever some constraint's degree adjustment would be
negative (i.e. `composition_degree < degree·trace_degree − divisor_degree`),
regardless of the coefficient supply. -/
theorem oodLoop_none {F : Type} [CommRing F] (x : F) (td cd : ℕ) :
    ∀ (chain : List (F × ℕ × F × ℕ)) (coefficients : List (F × F)) (acc : F),
      (∃ c ∈ chain, cd < c.2.1 * td - c.2.2.2) →
      oodLoop x td cd acc chain coefficients = none := by
  intro chain
  induction chain with
  | nil =>
    intro coefficients acc h
    simp at h
  | cons c rest ih =>
    intro coefficients acc h
    simp only [oodLoop]
    by_cases h1 : c.2.1 * td < c.2.2.2
    · rw [if_pos h1]
    · rw [if_neg h1]
      by_cases h2 : cd < c.2.1 * td - c.2.2.2
      · rw [if_pos h2]
      · rw [if_neg h2]
        rcases h with ⟨d, hd, hbad⟩
        rcases List.mem_cons.mp hd with rfl | hd2
        · omega
        · cases hL : coefficients.getLast? with
          | none => rfl
          | some ab => exact ih coefficients.dropLast _ ⟨d, hd2, hbad⟩

/-- **C6.**  `ood_constraint_evaluation` computes
`Σ_c (alpha_c · z^{d_c} + beta_c) · constraint_c(z) · divisor_c(z)` over
the boundary, transition and terminal constraints in order, where the
divisor values are `1/(z − 1)`, `(z − g⁻¹)/Z_H(z)` and `1/(z − g⁻¹)`
(`Z_H` the evaluation of the trace-domain vanishing polynomial, supplied
by the caller), the divisor degrees are `1`, `|H| − 1`, `1`, the
coefficient pairs are popped off the end of the coefficient vector, and
`d_c = composition_degree − (deg_c · (|H| − 1) − deg(divisor_c))`;
whenever `d_c` would be negative for some constraint the function aborts
(the `assert!`) instead of returning a value. -/
theorem c6_ood_constraint_evaluation_formula (F : Type) [Field F]
    [DecidableEq F] (boundary transition terminal : List (F × ℕ))
    (coefficients : List (F × F)) (traceLen compositionDegree : ℕ)
    (groupGenInv vanishEval x : F)
    (hx1 : x - 1 ≠ 0) (hx2 : x - groupGenInv ≠ 0) (hz : vanishEval ≠ 0)
    (hdeg : ∀ c ∈ oodChain boundary transition terminal traceLen groupGenInv
        vanishEval x,
      c.2.2.2 ≤ c.2.1 * (traceLen - 1) ∧
        c.2.1 * (traceLen - 1) - c.2.2.2 ≤ compositionDegree)
    (hlen : (oodChain boundary transition terminal traceLen groupGenInv
        vanishEval x).length ≤ coefficients.length) :
    ood_constraint_evaluation boundary transition terminal coefficients
        traceLen compositionDegree groupGenInv vanishEval x =
      some (((oodChain boundary transition terminal traceLen groupGenInv
          vanishEval x).zip coefficients.reverse).map
        (fun p => oodTerm compositionDegree (traceLen - 1) x p.1 p.2)).sum ∧
    ∀ (boundary2 transition2 terminal2 : List (F × ℕ))
        (coefficients2 : List (F × F)),
      (∃ c ∈ oodChain boundary2 transition2 terminal2 traceLen groupGenInv
          vanishEval x,
        compositionDegree < c.2.1 * (traceLen - 1) - c.2.2.2) →
      ood_constraint_evaluation boundary2 transition2 terminal2 coefficients2
        traceLen compositionDegree groupGenInv vanishEval x = none := by
  constructor
  · unfold ood_constraint_evaluation
    rw [if_neg (by push_neg; exact ⟨hx1, hx2, hz⟩)]
    rw [oodLoop_eq x (traceLen - 1) compositionDegree _ _ 0 hdeg hlen]
    rw [zero_add]
  · intro boundary2 transition2 terminal2 coefficients2 hbad
    unfold ood_constraint_evaluation
    by_cases hguard : x - 1 = 0 ∨ x - groupGenInv = 0 ∨ vanishEval = 0
    · rw [if_pos hguard]
    · rw [if_neg hguard]
      exact oodLoop_none x (traceLen - 1) compositionDegree _ _ 0 hbad

/-- Witness for C5: with the trivial collaborators, `expected = 1` and an
empty evaluation list (whose fold is `0`), `verify` reports the OOD
inconsistency. -/
theorem c5_ood_consistency_check_witness :
    demoOodOne (coinAfterOodStates demoProof) (zDrawn demoOracles demoProof) =
        some 1 ∧
    (providedOodFold (zDrawn demoOracles demoProof)
        demoProof.oodConstraintEvaluations =
        (∑ i ∈ Finset.range demoProof.oodConstraintEvaluations.length,
          demoProof.oodConstraintEvaluations.getD i 0 *
            zDrawn demoOracles demoProof ^ i) ∧
      (verify demoOracles demoAir demoProof demoOodOne =
          some (.error .inconsistentOodConstraintEvaluations) ↔
        (1 : ZMod 97) ≠ providedOodFold (zDrawn demoOracles demoProof)
          demoProof.oodConstraintEvaluations)) :=
  ⟨rfl, c5_ood_consistency_check demoOracles demoAir demoProof demoOodOne 1 rfl⟩

/-- Witness for C7: grinding factor `1`, zero leading zeros, matching OOD
values. -/
theorem c7_proof_of_work_check_witness :
    (demoOodZero (coinAfterOodStates demoProofPow)
        (zDrawn demoOracles demoProofPow) = some 0 ∧
      (0 : ZMod 97) = providedOodFold (zDrawn demoOracles demoProofPow)
        demoProofPow.oodConstraintEvaluations ∧
      demoOracles.friNew (coinAfterOodEvals demoProofPow) = .ok ()) ∧
    ((demoProofPow.grindingFactor ≠ 0 →
      (verify demoOracles demoAir demoProofPow demoOodZero =
          some (.error .friProofOfWork) ↔
        demoOracles.leadingZeros
            (demoOracles.friNewCoin (coinAfterOodEvals demoProofPow) ++
              [Blob.powNonce demoProofPow.powNonce]) <
          demoProofPow.grindingFactor)) ∧
     (demoProofPow.grindingFactor = 0 →
      powStage 0 demoOracles.leadingZeros
          (demoOracles.friNewCoin (coinAfterOodEvals demoProofPow))
          demoProofPow.powNonce =
          .ok (demoOracles.friNewCoin (coinAfterOodEvals demoProofPow)) ∧
        verify demoOracles demoAir demoProofPow demoOodZero ≠
          some (.error .friProofOfWork))) :=
  ⟨⟨rfl, rfl, rfl⟩,
    c7_proof_of_work_check demoOracles demoAir demoProofPow demoOodZero 0
      rfl rfl rfl⟩

/-- Witness for C6: one boundary constraint of degree `1`, one
coefficient pair, trace length `2`, composition degree `1`, over
`ZMod 97`. -/
theorem c6_ood_constraint_evaluation_formula_witness :
    (((2 : ZMod 97) - 1 ≠ 0) ∧ ((2 : ZMod 97) - 96 ≠ 0) ∧
      ((3 : ZMod 97) ≠ 0) ∧
      (∀ c ∈ oodChain [((2 : ZMod 97), 1)] [] [] 2 96 3 2,
        c.2.2.2 ≤ c.2.1 * (2 - 1) ∧ c.2.1 * (2 - 1) - c.2.2.2 ≤ 1) ∧
      ((oodChain [((2 : ZMod 97), 1)] [] [] 2 96 3 2).length ≤
        ([((3 : ZMod 97), (4 : ZMod 97))]).length)) ∧
    (ood_constraint_evaluation [((2 : ZMod 97), 1)] [] []
        [((3 : ZMod 97), (4 : ZMod 97))] 2 1 96 3 2 =
      some (((oodChain [((2 : ZMod 97), 1)] [] [] 2 96 3 2).zip
          ([((3 : ZMod 97), (4 : ZMod 97))]).reverse).map
        (fun p => oodTerm 1 (2 - 1) 2 p.1 p.2)).sum ∧
    ∀ (boundary2 transition2 terminal2 : List (ZMod 97 × ℕ))
        (coefficients2 : List (ZMod 97 × ZMod 97)),
      (∃ c ∈ oodChain boundary2 transition2 terminal2 2 96 3 2,
        1 < c.2.1 * (2 - 1) - c.2.2.2) →
      ood_constraint_evaluation boundary2 transition2 terminal2 coefficients2
        2 1 96 3 2 = none) :=
  ⟨⟨by decide, by decide, by decide, by decide, by decide⟩,
    c6_ood_constraint_evaluation_formula (ZMod 97) [((2 : ZMod 97), 1)] [] []
      [((3 : ZMod 97), (4 : ZMod 97))] 2 1 96 3 2
      (by decide) (by decide) (by decide) (by decide) (by decide)⟩
